import Mathlib

/-!
Verification of the git backend of `celerix-git-gui` (`src-tauri/src/git.rs`).

The Rust code shells out to the `git` binary and parses its text output, or
reads repository data through the `gix` library.  The embedding below models:

* Rust strings as `List Char` (`Str`), with executable counterparts of the
  string operations the source uses (`str::lines`, `str::split`, `str::trim`,
  `str::starts_with`, byte slicing on ASCII prefixes, ...), all written with
  structural recursion so that every definition evaluates by `decide`/`rfl`;
* a subprocess invocation as a lookup in an environment `GitEnv` mapping the
  `git` argument list to a captured `CmdResult` (the Rust `run_git_command`
  never inspects exit status itself, callers do);
* the `gix`-backed repository reads (open result, symbolic HEAD referent,
  configured remotes, local branch references) as a `RepoModel` record;
* each operation as a pure function returning its result together with the
  ordered trace of `git` argument lists it executed, so that claims about
  which commands run (and in which order) are statements about the trace.
-/

/-- Rust `String`/`&str` modelled as a list of characters. -/
abbrev Str := List Char

/-- Embed a Lean string literal into the `Str` model. -/
def str (s : String) : Str := s.toList

/-- Split on every occurrence of a single character, keeping empty pieces,
matching Rust `str::split(char)`. -/
def splitOnChar (sep : Char) : Str → List Str
  | [] => [[]]
  | a :: rest =>
    match splitOnChar sep rest with
    | [] => [[]]
    | s :: ss => if a = sep then [] :: s :: ss else (a :: s) :: ss

/-- Split on every position where `p` holds, keeping empty pieces,
matching Rust `str::split(pred)`. -/
def splitByPred (p : Char → Bool) : Str → List Str
  | [] => [[]]
  | a :: rest =>
    match splitByPred p rest with
    | [] => [[]]
    | s :: ss => if p a then [] :: s :: ss else (a :: s) :: ss

/-- Rust `str::split_whitespace`: non-empty runs between whitespace. -/
def splitWhitespaceL (s : Str) : List Str :=
  (splitByPred Char.isWhitespace s).filter (fun p => !p.isEmpty)

/-- Rust `str::lines`: split on `'\n'`, drop one trailing empty line, strip a
trailing `'\r'` from each line. -/
def rustLines (s : Str) : List Str :=
  let parts := splitOnChar '\n' s
  let parts := if parts.getLast? = some [] then parts.dropLast else parts
  parts.map (fun l => if l.getLast? = some '\r' then l.dropLast else l)

/-- Rust `str::trim` (whitespace from both ends). -/
def rustTrim (s : Str) : Str :=
  ((s.dropWhile Char.isWhitespace).reverse.dropWhile Char.isWhitespace).reverse

/-- Rust `str::contains(&str)`: `pat` occurs as a contiguous substring. -/
def containsSub (pat : Str) : Str → Bool
  | [] => pat.isPrefixOf []
  | c :: rest => pat.isPrefixOf (c :: rest) || containsSub pat rest

/-- Fuel-driven worker for `splitOnSeq`; the fuel is the input length, so the
`0, s` fallback is never reached on the wrapper's calls. -/
def splitOnSeqGo (sep : Str) : Nat → Str → Str → List Str
  | _, [], acc => [acc.reverse]
  | 0, s, acc => [acc.reverse ++ s]
  | fuel + 1, c :: rest, acc =>
    if sep.isPrefixOf (c :: rest) then
      acc.reverse :: splitOnSeqGo sep fuel (List.drop (sep.length - 1) rest) []
    else splitOnSeqGo sep fuel rest (c :: acc)

/-- Split on every occurrence of the (non-empty) separator string, keeping
empty pieces, matching Rust `str::split(&str)`. -/
def splitOnSeq (sep s : Str) : List Str :=
  if sep.isEmpty then [s] else splitOnSeqGo sep s.length s []

/-- Rust `if full_name.starts_with("refs/heads/") { &full_name[11..] }`:
strip the local-branch namespace prefix when present. -/
def stripHeads (full : Str) : Str :=
  if (str "refs/heads/").isPrefixOf full then full.drop 11 else full

/-- Rust `remote_branch.find('/')` followed by slicing off everything up to
and including the first `'/'` (the whole string when there is no slash). -/
def afterFirstSlash (s : Str) : Str :=
  match s.dropWhile (· ≠ '/') with
  | [] => s
  | _ :: rest => rest

instance {ε α : Type} [DecidableEq ε] [DecidableEq α] : DecidableEq (Except ε α) := by
  intro a b
  cases a <;> cases b
  case error.error x y =>
    exact if h : x = y then .isTrue (by rw [h]) else .isFalse (by intro hc; cases hc; exact h rfl)
  case ok.ok x y =>
    exact if h : x = y then .isTrue (by rw [h]) else .isFalse (by intro hc; cases hc; exact h rfl)
  case error.ok x y => exact .isFalse (by intro hc; cases hc)
  case ok.error x y => exact .isFalse (by intro hc; cases hc)

/-- Captured output of one `git` subprocess (`std::process::Output`): exit
status success flag, stdout and stderr text. -/
structure CmdResult where
  success : Bool
  stdout : Str
  stderr : Str
deriving DecidableEq, Repr

/-- The external `git` binary: a mapping from the argument list passed to
`run_git_command` to the captured output.  Spawning is assumed to succeed;
a non-zero exit is expressed through `success = false`. -/
abbrev GitEnv := List Str → CmdResult

/-- `GitRemote` record (name, url) as produced by `get_git_remotes`. -/
structure GitRemote where
  name : Str
  url : Str
deriving DecidableEq, Repr

/-- The `gix`-backed repository reads used by the operations: the result of
`gix::open`/`gix::discover`, the symbolic HEAD referent full name
(`head_ref.referent_name()`, `none` when HEAD is detached), the remotes from
the config snapshot, and the full names of the local branch references. -/
structure RepoModel where
  openResult : Except Str Unit
  headReferent : Option Str
  remotes : List GitRemote
  localRefs : List Str

/-- `GitStatusFile` record: path, two-character status code, staged flag. -/
structure GitStatusFile where
  path : Str
  status : Str
  is_staged : Bool
deriving DecidableEq, Repr

/-- The per-line body of the `get_git_status` parsing loop: lines shorter
than 4 characters are skipped; `x`/`y` are the index and worktree status
characters; the path is the slice from position 3; a staged entry is pushed
when `x` is neither blank nor `'?'`, an unstaged entry when `y` is non-blank
or both characters are `'?'`. -/
def parseStatusLine (line : Str) : List GitStatusFile :=
  if line.length < 4 then []
  else
    let x := line.getD 0 ' '
    let y := line.getD 1 ' '
    let file_path := line.drop 3
    (if x ≠ ' ' ∧ x ≠ '?' then [⟨file_path, [x, ' '], true⟩] else [])
      ++ (if y ≠ ' ' ∨ (x = '?' ∧ y = '?') then [⟨file_path, [' ', y], false⟩] else [])

/-- The whole `git status --porcelain` stdout parse of `get_git_status`. -/
def parseStatus (stdout : Str) : List GitStatusFile :=
  (rustLines stdout).foldl (fun acc line => acc ++ parseStatusLine line) []

/-- `get_git_status`: open the repository (error otherwise), run
`git status --porcelain`, parse the porcelain lines. -/
def get_git_status (env : GitEnv) (repo : RepoModel) :
    Except Str (List GitStatusFile) × List (List Str) :=
  match repo.openResult with
  | .error e => (.error (str "Could not open git repo: " ++ e), [])
  | .ok _ =>
    let c := [str "status", str "--porcelain"]
    let out := env c
    if !out.success then (.error (str "Git status failed: " ++ out.stderr), [c])
    else (.ok (parseStatus out.stdout), [c])

/-- C1: for a porcelain line of length at least 4 with index character `x`
and worktree character `y`, the status parser emits a staged entry exactly
when `x` is neither blank nor `'?'`, and an unstaged entry exactly when `y`
is non-blank or both characters are `'?'`; a line with `x = 'M'` and
`y = 'M'` yields exactly two entries sharing the path, one staged and one
unstaged. -/
theorem status_line_emission (line : Str) (h : 4 ≤ line.length) :
    ((∃ e ∈ parseStatusLine line, e.is_staged = true) ↔
      (line.getD 0 ' ' ≠ ' ' ∧ line.getD 0 ' ' ≠ '?'))
    ∧ ((∃ e ∈ parseStatusLine line, e.is_staged = false) ↔
      (line.getD 1 ' ' ≠ ' ' ∨ (line.getD 0 ' ' = '?' ∧ line.getD 1 ' ' = '?')))
    ∧ (line.getD 0 ' ' = 'M' → line.getD 1 ' ' = 'M' →
      parseStatusLine line =
        [⟨line.drop 3, ['M', ' '], true⟩, ⟨line.drop 3, [' ', 'M'], false⟩]) := by
  have hlt : ¬ line.length < 4 := by omega
  unfold parseStatusLine
  rw [if_neg hlt]
  by_cases h1 : (line.getD 0 ' ' ≠ ' ' ∧ line.getD 0 ' ' ≠ '?') <;>
    by_cases h2 : (line.getD 1 ' ' ≠ ' ' ∨ (line.getD 0 ' ' = '?' ∧ line.getD 1 ' ' = '?')) <;>
    simp only [if_pos, if_neg, h1, h2, ite_true, ite_false] <;>
    refine ⟨?_, ?_, ?_⟩ <;>
    simp_all <;>
    (try intro hx hy) <;>
    simp_all

/-- Witness for `status_line_emission` at the concrete line `"MM foo"`. -/
theorem status_line_emission_witness :
    4 ≤ (str "MM foo").length
    ∧ parseStatusLine (str "MM foo") =
        [⟨str "foo", ['M', ' '], true⟩, ⟨str "foo", [' ', 'M'], false⟩] :=
  ⟨by decide,
    (status_line_emission (str "MM foo") (by decide)).2.2 (by decide) (by decide)⟩

/-- `GitCommit` record produced by the `get_git_commits` log parser. -/
structure GitCommit where
  hash : Str
  author : Str
  author_email : Str
  message : Str
  body : Str
  date : Str
  parents : List Str
  branches : List Str
  tags : List Str
deriving DecidableEq, Repr

/-- The per-field delimiter of the custom `git log` format. -/
def partDelim : Str := str "----------COMMIT-PART----------"

/-- The per-record terminator of the custom `git log` format. -/
def endDelim : Str := str "----------COMMIT-END----------"

/-- The ref-decoration accumulation loop of `get_git_commits`: each token is
trimmed; a `"HEAD -> "` token is pushed (marker stripped) onto the branch
list, a `"tag: "` token (marker stripped) onto the tag list, anything else
onto the branch list. -/
def collectRefs : List Str → List Str × List Str → List Str × List Str
  | [], acc => acc
  | r :: rest, acc =>
    let r := rustTrim r
    if (str "HEAD -> ").isPrefixOf r then collectRefs rest (acc.1 ++ [r.drop 8], acc.2)
    else if (str "tag: ").isPrefixOf r then collectRefs rest (acc.1, acc.2 ++ [r.drop 5])
    else collectRefs rest (acc.1 ++ [r], acc.2)

/-- The ref-decoration field parse of `get_git_commits`: an empty field gives
empty lists, otherwise the field is split on commas and accumulated. -/
def parseDecorationField (field : Str) : List Str × List Str :=
  if field.isEmpty then ([], [])
  else collectRefs (splitOnChar ',' field) ([], [])

/-- Declarative reading of one decoration token as a branch name, following
the spec's words: "HEAD -> " marker stripped, tag tokens skipped, any other
token taken as a branch name.  Used to characterize `collectRefs`. -/
def specBranchToken (r : Str) : Option Str :=
  let r := rustTrim r
  if (str "HEAD -> ").isPrefixOf r then some (r.drop 8)
  else if (str "tag: ").isPrefixOf r then none
  else some r

/-- Declarative reading of one decoration token as a tag name, following the
spec's words: only "tag: " tokens, marker stripped. -/
def specTagToken (r : Str) : Option Str :=
  let r := rustTrim r
  if (str "HEAD -> ").isPrefixOf r then none
  else if (str "tag: ").isPrefixOf r then some (r.drop 5)
  else none

/-- One record of the custom-format log output: split on the field delimiter;
records with fewer than 8 fields are dropped (`none`). -/
def parseCommitRecord (commit_str : Str) : Option GitCommit :=
  let parts := splitOnSeq partDelim commit_str
  if 8 ≤ parts.length then
    some {
      hash := parts.getD 0 []
      author := parts.getD 1 []
      author_email := parts.getD 2 []
      date := parts.getD 3 []
      message := parts.getD 4 []
      body := rustTrim (parts.getD 5 [])
      parents := splitWhitespaceL (parts.getD 6 [])
      branches := (parseDecorationField (parts.getD 7 [])).1
      tags := (parseDecorationField (parts.getD 7 [])).2 }
  else none

/-- The whole `get_git_commits` stdout parse: split on the record terminator,
trim each record, skip empty ones, parse the rest. -/
def parseCommits (stdout : Str) : List GitCommit :=
  (splitOnSeq endDelim stdout).foldl (fun acc cs =>
    let cs := rustTrim cs
    if cs.isEmpty then acc
    else
      match parseCommitRecord cs with
      | some c => acc ++ [c]
      | none => acc) []

/-- The accumulation loop equals a one-pass `filterMap` by the two
declarative token readings. -/
theorem collectRefs_filterMap (ts : List Str) (acc : List Str × List Str) :
    collectRefs ts acc =
      (acc.1 ++ ts.filterMap specBranchToken, acc.2 ++ ts.filterMap specTagToken) := by
  induction ts generalizing acc with
  | nil => simp [collectRefs]
  | cons r rest ih =>
    simp only [collectRefs, specBranchToken, specTagToken, List.filterMap_cons]
    by_cases hb : (str "HEAD -> ").isPrefixOf (rustTrim r) = true
    · simp [hb, ih]
    · by_cases ht : (str "tag: ").isPrefixOf (rustTrim r) = true
      · simp [hb, ht, ih]
      · simp [hb, ht, ih]

set_option maxRecDepth 8000 in
/-- C4: for a log record with at least 8 delimiter-separated fields the
record parses, and its branch/tag lists come from the 8th field split on
commas with each trimmed token read by its marker ("HEAD -> " branches with
the marker stripped, "tag: " tags with the marker stripped, everything else
a branch); an empty field yields empty lists, and the field
`"HEAD -> main, tag: v1.0, release"` yields branches `["main", "release"]`
and tags `["v1.0"]`. -/
theorem log_decoration_parsing (rec : Str)
    (h : 8 ≤ (splitOnSeq partDelim rec).length) :
    ∃ c, parseCommitRecord rec = some c
      ∧ ((splitOnSeq partDelim rec).getD 7 [] = [] → c.branches = [] ∧ c.tags = [])
      ∧ ((splitOnSeq partDelim rec).getD 7 [] ≠ [] →
          c.branches =
            (splitOnChar ',' ((splitOnSeq partDelim rec).getD 7 [])).filterMap specBranchToken
          ∧ c.tags =
            (splitOnChar ',' ((splitOnSeq partDelim rec).getD 7 [])).filterMap specTagToken)
      ∧ parseDecorationField (str "HEAD -> main, tag: v1.0, release")
          = ([str "main", str "release"], [str "v1.0"]) := by
  refine ⟨{
      hash := (splitOnSeq partDelim rec).getD 0 []
      author := (splitOnSeq partDelim rec).getD 1 []
      author_email := (splitOnSeq partDelim rec).getD 2 []
      date := (splitOnSeq partDelim rec).getD 3 []
      message := (splitOnSeq partDelim rec).getD 4 []
      body := rustTrim ((splitOnSeq partDelim rec).getD 5 [])
      parents := splitWhitespaceL ((splitOnSeq partDelim rec).getD 6 [])
      branches := (parseDecorationField ((splitOnSeq partDelim rec).getD 7 [])).1
      tags := (parseDecorationField ((splitOnSeq partDelim rec).getD 7 [])).2 },
    ?_, ?_, ?_, by decide⟩
  · unfold parseCommitRecord
    rw [if_pos h]
  · intro hemp
    rw [hemp]
    exact ⟨rfl, rfl⟩
  · intro hne
    cases hx : (splitOnSeq partDelim rec).getD 7 [] with
    | nil => exact absurd hx hne
    | cons a l =>
      constructor <;> simp [parseDecorationField, collectRefs_filterMap]

/-- A concrete 8-field log record used by the witness below. -/
def c4rec : Str :=
  str "h1----------COMMIT-PART----------An Author----------COMMIT-PART----------a@b.c----------COMMIT-PART----------1700000000----------COMMIT-PART----------subject----------COMMIT-PART----------body----------COMMIT-PART----------p1 p2----------COMMIT-PART----------HEAD -> main, tag: v1.0, release"

set_option maxRecDepth 8000 in
/-- Witness for `log_decoration_parsing` at a concrete 8-field record. -/
theorem log_decoration_parsing_witness :
    8 ≤ (splitOnSeq partDelim c4rec).length
    ∧ ∃ c, parseCommitRecord c4rec = some c
        ∧ c.branches = [str "main", str "release"]
        ∧ c.tags = [str "v1.0"] := by
  refine ⟨by decide, ?_⟩
  obtain ⟨c, hc, _hemp, hne, _hex⟩ := log_decoration_parsing c4rec (by decide)
  obtain ⟨hb, ht⟩ := hne (by decide)
  exact ⟨c, hc, by rw [hb]; decide, by rw [ht]; decide⟩

/-- `GitBranch` record: short name and current flag. -/
structure GitBranch where
  name : Str
  is_current : Bool
deriving DecidableEq, Repr

/-- `get_git_branches`: every local branch reference, with the current flag
set by comparing the full reference name against the symbolic HEAD referent
and the name stripped of the `refs/heads/` namespace prefix. -/
def get_git_branches (localRefs : List Str) (headName : Option Str) : List GitBranch :=
  localRefs.map (fun full_name =>
    { name := stripHeads full_name, is_current := headName == some full_name })

/-- Counting occurrences by `==` in a duplicate-free list: at most one, and
exactly one when the element is present. -/
theorem countP_beq_nodup (l : List Str) (a : Str) (hnd : l.Nodup) :
    List.countP (fun x => a == x) l ≤ 1
    ∧ (a ∈ l → List.countP (fun x => a == x) l = 1) := by
  induction l with
  | nil => simp
  | cons b rest ih =>
    rw [List.nodup_cons] at hnd
    obtain ⟨hb, hrest⟩ := hnd
    obtain ⟨ih1, ih2⟩ := ih hrest
    by_cases hab : a = b
    · subst hab
      have hz : List.countP (fun x => a == x) rest = 0 := by
        rw [List.countP_eq_zero]
        intro x hx
        simp only [beq_iff_eq]
        intro hax
        exact hb (hax ▸ hx)
      exact ⟨by simp [List.countP_cons, hz], fun _ => by simp [List.countP_cons, hz]⟩
    · constructor
      · simpa [List.countP_cons, hab] using ih1
      · intro hmem
        rcases List.mem_cons.mp hmem with h | h
        · exact absurd h hab
        · simpa [List.countP_cons, hab] using ih2 h

/-- C9 counterexample: a repository with one local branch and a detached
HEAD (no symbolic referent) yields a branch list in which no entry has
`is_current = true`, so "exactly one" fails. -/
theorem branch_current_counterexample :
    ¬ (List.countP (fun b => b.is_current)
        (get_git_branches [str "refs/heads/main"] none) = 1) := by decide

/-- C9 amended: in the list returned by `get_git_branches`, when reference
names are unique at most one branch has `is_current = true`; the count is
one exactly when the symbolic HEAD referent equals one of the listed
references' full names, and whenever it does not (detached HEAD, or an
unborn HEAD whose target is not among the references) no branch is
current. -/
theorem branch_current_at_most_one (refs : List Str) (headName : Option Str)
    (hnd : refs.Nodup) :
    List.countP (fun b => b.is_current) (get_git_branches refs headName) ≤ 1
    ∧ (List.countP (fun b => b.is_current) (get_git_branches refs headName) = 1 ↔
        ∃ h0, headName = some h0 ∧ h0 ∈ refs)
    ∧ ((∀ h0, headName = some h0 → h0 ∉ refs) →
        List.countP (fun b => b.is_current) (get_git_branches refs headName) = 0) := by
  have hmap : List.countP (fun b => b.is_current) (get_git_branches refs headName)
      = List.countP (fun full => headName == some full) refs := by
    unfold get_git_branches
    rw [List.countP_map]
    rfl
  rw [hmap]
  cases headName with
  | none =>
    have hz : List.countP (fun full => (none : Option Str) == some full) refs = 0 := by
      rw [List.countP_eq_zero]
      intro x _
      simp
    refine ⟨by simp [hz], ?_, fun _ => hz⟩
    rw [hz]
    constructor
    · intro h
      exact absurd h (by decide)
    · rintro ⟨h0, heq, _⟩
      cases heq
  | some h0 =>
    have hfun : (fun full => (some h0 : Option Str) == some full) = (fun full => h0 == full) := by
      funext full
      rfl
    rw [hfun]
    obtain ⟨le1, eq1⟩ := countP_beq_nodup refs h0 hnd
    by_cases hmem : h0 ∈ refs
    · refine ⟨le1, ?_, ?_⟩
      · exact ⟨fun _ => ⟨h0, rfl, hmem⟩, fun _ => eq1 hmem⟩
      · intro hnone
        exact absurd hmem (hnone h0 rfl)
    · have hz : List.countP (fun x => h0 == x) refs = 0 := by
        rw [List.countP_eq_zero]
        intro x hx
        simp only [beq_iff_eq]
        intro hax
        exact hmem (hax ▸ hx)
      refine ⟨le1, ?_, fun _ => hz⟩
      rw [hz]
      constructor
      · intro h
        exact absurd h (by decide)
      · rintro ⟨h1, heq, hm⟩
        cases heq
        exact absurd hm hmem

/-- Witness for `branch_current_at_most_one`: two distinct branches with
HEAD pointing at the first give exactly one current entry. -/
theorem branch_current_witness :
    List.Nodup [str "refs/heads/main", str "refs/heads/dev"]
    ∧ List.countP (fun b => b.is_current)
        (get_git_branches [str "refs/heads/main", str "refs/heads/dev"]
          (some (str "refs/heads/main"))) = 1 :=
  ⟨by decide,
    (branch_current_at_most_one [str "refs/heads/main", str "refs/heads/dev"]
        (some (str "refs/heads/main")) (by decide)).2.1.mpr
      ⟨str "refs/heads/main", rfl, by decide⟩⟩

/-- The filesystem read used by `get_git_diff`/`get_avatar`
(`fs::read_to_string`): path to content, or an error message. -/
abbrev FsEnv := Str → Except Str Str

/-- The synthesized diff of `get_git_diff` for untracked/unreported files:
`--- /dev/null` and `+++ b/<file>` headers, then every line of the file's
content prefixed with `'+'`. -/
def synthDiff (file_path content : Str) : Str :=
  str "--- /dev/null\n+++ b/" ++ file_path ++ str "\n"
    ++ (rustLines content).foldl (fun acc l => acc ++ ('+' :: l) ++ ['\n']) []

/-- The first command of `get_git_diff`: `diff HEAD -- <file>`. -/
def diffCmdHead (fp : Str) : List Str := [str "diff", str "HEAD", str "--", fp]

/-- The failure fallback of `get_git_diff`: `diff -- <file>`. -/
def diffCmdPlain (fp : Str) : List Str := [str "diff", str "--", fp]

/-- The untracked check of `get_git_diff`: `status --porcelain <file>`. -/
def diffCmdStatus (fp : Str) : List Str := [str "status", str "--porcelain", fp]

/-- The empty-diff fallback of `get_git_diff`: `diff --cached -- <file>`. -/
def diffCmdCached (fp : Str) : List Str := [str "diff", str "--cached", str "--", fp]

/-- `get_git_diff`: `diff HEAD` first; on command failure fall back to
`diff` with no base, then (if that also fails and the porcelain status
starts with `"??"`) synthesize from the file content; on success with empty
output try `diff --cached`, then synthesize from non-empty readable file
content, else return the empty diff. -/
def get_git_diff (env : GitEnv) (fsr : FsEnv) (path file_path : Str) :
    Except Str Str × List (List Str) :=
  let out := env (diffCmdHead file_path)
  if !out.success then
    let fb := env (diffCmdPlain file_path)
    if !fb.success then
      let st := env (diffCmdStatus file_path)
      if (str "??").isPrefixOf st.stdout then
        match fsr (path ++ '/' :: file_path) with
        | .ok content =>
          (.ok (synthDiff file_path content),
            [diffCmdHead file_path, diffCmdPlain file_path, diffCmdStatus file_path])
        | .error e =>
          (.error e, [diffCmdHead file_path, diffCmdPlain file_path, diffCmdStatus file_path])
      else
        (.error (str "Git diff failed: " ++ fb.stderr),
          [diffCmdHead file_path, diffCmdPlain file_path, diffCmdStatus file_path])
    else (.ok fb.stdout, [diffCmdHead file_path, diffCmdPlain file_path])
  else
    let diff := out.stdout
    if diff.isEmpty then
      let cached := env (diffCmdCached file_path)
      let diff_cached := cached.stdout
      if !diff_cached.isEmpty then
        (.ok diff_cached, [diffCmdHead file_path, diffCmdCached file_path])
      else
        match fsr (path ++ '/' :: file_path) with
        | .ok content =>
          if !content.isEmpty then
            (.ok (synthDiff file_path content), [diffCmdHead file_path, diffCmdCached file_path])
          else (.ok diff, [diffCmdHead file_path, diffCmdCached file_path])
        | .error _ => (.ok diff, [diffCmdHead file_path, diffCmdCached file_path])
    else (.ok diff, [diffCmdHead file_path])

/-- `get_git_remotes`: open the repository, enumerate the configured
remotes (modelled as repository data). -/
def get_git_remotes (repo : RepoModel) : Except Str (List GitRemote) :=
  match repo.openResult with
  | .error e => .error e
  | .ok _ => .ok repo.remotes

/-- `git_push`: run `git push`; on failure whose stderr mentions a missing
upstream, resolve the branch name from the symbolic HEAD referent, list the
remotes, and retry with `push --set-upstream` only when exactly one remote
exists; zero remotes and two-or-more remotes are terminal errors. -/
def git_push (env : GitEnv) (repo : RepoModel) : Except Str Unit × List (List Str) :=
  let c1 := [str "push"]
  let out := env c1
  if out.success then (.ok (), [c1])
  else if containsSub (str "no upstream branch") out.stderr then
    match repo.openResult with
    | .error e => (.error e, [c1])
    | .ok _ =>
      match repo.headReferent with
      | none => (.error (str "Could not determine current branch name"), [c1])
      | some full_name =>
        let branch_name := stripHeads full_name
        match get_git_remotes repo with
        | .error e => (.error e, [c1])
        | .ok remotes =>
          match remotes with
          | [r] =>
            let c2 := [str "push", str "--set-upstream", r.name, branch_name]
            let out2 := env c2
            if out2.success then (.ok (), [c1, c2])
            else (.error (str "Git push --set-upstream failed: " ++ out2.stderr), [c1, c2])
          | [] => (.error (str "No remotes configured to push to."), [c1])
          | _ =>
            (.error (str "Branch '" ++ branch_name
              ++ str "' has no upstream. Please set it manually or choose a remote."), [c1])
  else (.error (str "Git push failed: " ++ out.stderr), [c1])

/-- The part of `git_delete_branch` after the current-branch guard: forced
local delete, then (optionally) a best-effort remote delete on every remote
listed by `git remote`, errors ignored. -/
def git_delete_branch_rest (env : GitEnv) (branch_name : Str) (delete_remote : Bool) :
    Except Str Unit × List (List Str) :=
  let c1 := [str "branch", str "-D", branch_name]
  let out := env c1
  if !out.success then
    (.error (str "Failed to delete local branch '" ++ branch_name ++ str "': " ++ out.stderr), [c1])
  else if delete_remote then
    let c2 := [str "remote"]
    let rout := env c2
    if rout.success then
      let deletes := (((rustLines rout.stdout).map rustTrim).filter
        (fun r => !r.isEmpty)).map (fun r => [str "push", r, str "--delete", branch_name])
      (.ok (), c1 :: c2 :: deletes)
    else (.ok (), [c1, c2])
  else (.ok (), [c1])

/-- `git_delete_branch`: refuse when the requested name equals the branch
name of the symbolic HEAD referent (prefix stripped), else delete. -/
def git_delete_branch (env : GitEnv) (repo : RepoModel) (branch_name : Str)
    (delete_remote : Bool) : Except Str Unit × List (List Str) :=
  match repo.openResult with
  | .error e => (.error e, [])
  | .ok _ =>
    match repo.headReferent with
    | some full_name =>
      if stripHeads full_name = branch_name then
        (.error (str "Cannot delete the currently active branch."), [])
      else git_delete_branch_rest env branch_name delete_remote
    | none => git_delete_branch_rest env branch_name delete_remote

/-- `git_discard_changes`: nothing on an empty list; else `checkout --`
with the requested paths, re-query the status, and run `clean -f --` on the
requested paths whose re-queried status satisfies the untracked filter
(`s.status.trim() == "??"`), skipping the clean when that subset is empty. -/
def git_discard_changes (env : GitEnv) (repo : RepoModel) (files : List Str) :
    Except Str Unit × List (List Str) :=
  if files.isEmpty then (.ok (), [])
  else
    let c1 := [str "checkout", str "--"] ++ files
    let out := env c1
    if !out.success then (.error (str "Git discard changes failed: " ++ out.stderr), [c1])
    else
      match get_git_status env repo with
      | (.error e, t) => (.error e, c1 :: t)
      | (.ok status0, t) =>
        let untracked := files.filter
          (fun f => status0.any (fun s => s.path == f && rustTrim s.status == str "??"))
        if !untracked.isEmpty then
          let c2 := [str "clean", str "-f", str "--"] ++ untracked
          let out2 := env c2
          if !out2.success then (.error (str "Git clean failed: " ++ out2.stderr), c1 :: t ++ [c2])
          else (.ok (), c1 :: t ++ [c2])
        else (.ok (), c1 :: t)

/-- `git_stage_file`: `git add <file>`. -/
def git_stage_file (env : GitEnv) (file_path : Str) : Except Str Unit × List (List Str) :=
  let c := [str "add", file_path]
  let out := env c
  if !out.success then (.error (str "Git add failed: " ++ out.stderr), [c])
  else (.ok (), [c])

/-- The staging loop of `git_stash_save`: stage each requested file in
order, stopping at the first failure. -/
def stageFiles (env : GitEnv) : List Str → Except Str Unit × List (List Str)
  | [] => (.ok (), [])
  | f :: rest =>
    match git_stage_file env f with
    | (.ok _, t) =>
      match stageFiles env rest with
      | (r, t2) => (r, t ++ t2)
    | (.error e, t) => (.error e, t)

/-- The optional `-m <message>` arguments of `git_stash_save`: attached only
when a message is supplied and its trim is non-empty. -/
def stashMsgArgs (message : Option Str) : List Str :=
  match message with
  | some m => if !(rustTrim m).isEmpty then [str "-m", m] else []
  | none => []

/-- `git_stash_save`: nothing on an empty list; else stage exactly the
requested files, then `git stash push --staged` with the optional message. -/
def git_stash_save (env : GitEnv) (files : List Str) (message : Option Str) :
    Except Str Unit × List (List Str) :=
  if files.isEmpty then (.ok (), [])
  else
    match stageFiles env files with
    | (.error e, t) => (.error e, t)
    | (.ok _, t) =>
      let c := [str "stash", str "push", str "--staged"] ++ stashMsgArgs message
      let out := env c
      if !out.success then (.error (str "Git stash push --staged failed: " ++ out.stderr), t ++ [c])
      else (.ok (), t ++ [c])

/-- `git_checkout_remote_branch`: determine the target local name (explicit
new name, or the remote branch name after its first slash), look for a local
reference whose full name equals that target, and either check out the
existing branch (or error when an explicit new name was supplied) or create
and track a new branch. -/
def git_checkout_remote_branch (env : GitEnv) (repo : RepoModel) (remote_branch : Str)
    (new_branch_name : Option Str) : Except Str Unit × List (List Str) :=
  match repo.openResult with
  | .error e => (.error e, [])
  | .ok _ =>
    let default_local_name := afterFirstSlash remote_branch
    let target_local_name := new_branch_name.getD default_local_name
    let exists0 := repo.localRefs.any (fun full => full == target_local_name)
    if exists0 then
      if new_branch_name.isSome then
        (.error (str "Branch '" ++ target_local_name ++ str "' exists."), [])
      else
        let c := [str "checkout", target_local_name]
        let out := env c
        if out.success then (.ok (), [c])
        else (.error (str "Git checkout failed: " ++ out.stderr), [c])
    else
      let c := [str "checkout", str "-b", target_local_name, str "--track", remote_branch]
      let out := env c
      if out.success then (.ok (), [c])
      else (.error (str "Git checkout failed: " ++ out.stderr), [c])

/-- The standard base64 alphabet used by `base64::engine::general_purpose::STANDARD`. -/
def base64Table : Str :=
  str "ABCDEFGHIJKLMNOPQRSTUVWXYZabcdefghijklmnopqrstuvwxyz0123456789+/"

/-- One base64 alphabet character. -/
def b64c (n : Nat) : Char := base64Table.getD n '='

/-- Standard base64 encoding (with `=` padding) of a byte list. -/
def base64Encode : List Nat → Str
  | [] => []
  | [a] =>
    let a := a % 256
    [b64c (a / 4), b64c (a % 4 * 16), '=', '=']
  | [a, b] =>
    let a := a % 256
    let b := b % 256
    [b64c (a / 4), b64c (a % 4 * 16 + b / 16), b64c (b % 16 * 4), '=']
  | a :: b :: c :: rest =>
    let a' := a % 256
    let b' := b % 256
    let c' := c % 256
    [b64c (a' / 4), b64c (a' % 4 * 16 + b' / 16), b64c (b' % 16 * 4 + c' / 64), b64c (c' % 64)]
      ++ base64Encode rest

/-- Outcome of one `reqwest` HTTP GET: the send itself can fail, otherwise a
response carries a status flag and a fallible body read. -/
inductive NetResult where
  | sendFailed (e : Str)
  | response (statusSuccess : Bool) (bytes : Except Str (List Nat))

/-- The world `get_avatar` runs in: the md5 hex digest function, the avatar
cache directory (keyed by digest, `some bytes` when `<hash>.png` exists),
the network, the `gh api user` CLI result (trimmed login on success), the
`git` binary, and the result of writing the fetched bytes to the cache. -/
structure AvatarWorld where
  hashFn : Str → Str
  cacheFile : Str → Option (List Nat)
  net : Str → NetResult
  ghUsername : Option Str
  gitEnv : GitEnv
  writeResult : Except Str Unit

/-- One best-effort avatar fetch (`if let Ok(response) ... if success ...
if let Ok(bytes)`): any failure yields `none`. -/
def tryFetchBytes (w : AvatarWorld) (url : Str) : Option (List Nat) :=
  match w.net url with
  | .sendFailed _ => none
  | .response ok bs =>
    if ok then
      match bs with
      | .ok b => some b
      | .error _ => none
    else none

/-- The GitHub-specific candidate chain of `get_avatar` (entered only when a
repository path is supplied and `git remote -v` mentions `github.com`):
CLI-derived username, then the space-free non-empty name, then the email,
each a separate `unavatar.io` call, first non-failing response wins.
Returns the bytes found (if any) and the URLs requested. -/
def avatarGithubChain (w : AvatarWorld) (email name : Str) :
    Option (List Nat) × List Str :=
  let s1 : Option (List Nat) × List Str :=
    match w.ghUsername with
    | some username =>
      let url := str "https://unavatar.io/github/" ++ username ++ str "?fallback=false"
      (tryFetchBytes w url, [url])
    | none => (none, [])
  let s2 : Option (List Nat) × List Str :=
    if s1.1.isNone && !name.contains ' ' && !name.isEmpty then
      let url := str "https://unavatar.io/github/" ++ name ++ str "?fallback=false"
      (tryFetchBytes w url, s1.2 ++ [url])
    else s1
  if s2.1.isNone then
    let url := str "https://unavatar.io/" ++ email ++ str "?fallback=false"
    (tryFetchBytes w url, s2.2 ++ [url])
  else s2

/-- `get_avatar`: trim+lowercase the email, hash it, and return the cached
bytes base64-encoded on cache hit; on miss, try the GitHub-specific chain
(when a repository path is supplied and its remotes mention github.com),
then fall back to Gravatar, writing the first successful fetch to the
cache.  The second component is the list of network URLs requested. -/
def get_avatar (w : AvatarWorld) (email name : Str) (repo_path : Option Str) :
    Except Str Str × List Str :=
  let email := (rustTrim email).map Char.toLower
  let name := rustTrim name
  let hash := w.hashFn email
  match w.cacheFile hash with
  | some bytes => (.ok (str "data:image/png;base64," ++ base64Encode bytes), [])
  | none =>
    let step1 : Option (List Nat) × List Str :=
      match repo_path with
      | none => (none, [])
      | some _ =>
        let out := w.gitEnv [str "remote", str "-v"]
        if containsSub (str "github.com") out.stdout then avatarGithubChain w email name
        else (none, [])
    match step1 with
    | (some bytes, trace) =>
      match w.writeResult with
      | .error e => (.error e, trace)
      | .ok _ => (.ok (str "data:image/png;base64," ++ base64Encode bytes), trace)
    | (none, trace) =>
      let url := str "https://www.gravatar.com/avatar/" ++ hash ++ str "?d=identicon&s=128"
      match w.net url with
      | .sendFailed e => (.error e, trace ++ [url])
      | .response ok bs =>
        if ok then
          match bs with
          | .error e => (.error e, trace ++ [url])
          | .ok bytes =>
            match w.writeResult with
            | .error e => (.error e, trace ++ [url])
            | .ok _ =>
              (.ok (str "data:image/png;base64," ++ base64Encode bytes), trace ++ [url])
        else (.error (str "Failed to fetch avatar"), trace ++ [url])

/-- Environment for the C2 counterexample: `diff HEAD` succeeds with empty
output, a working-tree `diff` would return "WT", `diff --cached` returns
"CACHED". -/
def envC2 : GitEnv := fun args =>
  if args = diffCmdPlain (str "f") then ⟨true, str "WT", []⟩
  else if args = diffCmdCached (str "f") then ⟨true, str "CACHED", []⟩
  else ⟨true, [], []⟩

/-- Filesystem for the C2 counterexample. -/
def fsrC2 : FsEnv := fun _ => .ok (str "x")

/-- C2 counterexample: when the HEAD diff succeeds but is empty, the
resolver does NOT try "a diff against the working tree with no base" as the
claim states: the command `diff -- <file>` is never run; instead
`diff --cached` is run and its output returned. -/
theorem diff_fallback_counterexample :
    (get_git_diff envC2 fsrC2 (str "r") (str "f")).1 = .ok (str "CACHED")
    ∧ (get_git_diff envC2 fsrC2 (str "r") (str "f")).2 =
        [diffCmdHead (str "f"), diffCmdCached (str "f")]
    ∧ diffCmdPlain (str "f") ∉ (get_git_diff envC2 fsrC2 (str "r") (str "f")).2 := by decide

/-- C2 amended: the fallback chain of `get_git_diff` is: `diff HEAD` first;
if the command FAILS, `diff` against the working tree with no base; if that
also fails and the file's porcelain status starts with "??", a synthesized
diff from the file's content with every line prefixed '+' and
`--- /dev/null` / `+++ b/<file>` headers; if the HEAD diff succeeds but its
output is EMPTY, a `--cached` (index vs HEAD) diff; if that is also empty,
the same synthesized diff when the file reads successfully and is
non-empty. -/
theorem diff_fallback_chain (env : GitEnv) (fsr : FsEnv) (path fp : Str) :
    ((env (diffCmdHead fp)).success = false → (env (diffCmdPlain fp)).success = false →
      (str "??").isPrefixOf (env (diffCmdStatus fp)).stdout = true →
      ∀ content, fsr (path ++ '/' :: fp) = .ok content →
        get_git_diff env fsr path fp =
          (.ok (synthDiff fp content), [diffCmdHead fp, diffCmdPlain fp, diffCmdStatus fp]))
    ∧ ((env (diffCmdHead fp)).success = false → (env (diffCmdPlain fp)).success = true →
        get_git_diff env fsr path fp =
          (.ok (env (diffCmdPlain fp)).stdout, [diffCmdHead fp, diffCmdPlain fp]))
    ∧ ((env (diffCmdHead fp)).success = true → (env (diffCmdHead fp)).stdout = [] →
        (env (diffCmdCached fp)).stdout ≠ [] →
        get_git_diff env fsr path fp =
          (.ok (env (diffCmdCached fp)).stdout, [diffCmdHead fp, diffCmdCached fp]))
    ∧ ((env (diffCmdHead fp)).success = true → (env (diffCmdHead fp)).stdout = [] →
        (env (diffCmdCached fp)).stdout = [] →
        ∀ content, fsr (path ++ '/' :: fp) = .ok content → content ≠ [] →
        get_git_diff env fsr path fp =
          (.ok (synthDiff fp content), [diffCmdHead fp, diffCmdCached fp]))
    ∧ ((env (diffCmdHead fp)).success = true → (env (diffCmdHead fp)).stdout ≠ [] →
        get_git_diff env fsr path fp = (.ok (env (diffCmdHead fp)).stdout, [diffCmdHead fp])) := by
  refine ⟨?_, ?_, ?_, ?_, ?_⟩
  · intro h1 h2 h3 content hfs
    simp [get_git_diff, h1, h2, h3, hfs]
  · intro h1 h2
    simp [get_git_diff, h1, h2]
  · intro h1 h2 h3
    simp [get_git_diff, h1, h2, h3]
  · intro h1 h2 h3 content hfs h4
    simp [get_git_diff, h1, h2, h3, hfs, h4]
  · intro h1 h2
    simp [get_git_diff, h1, h2]

/-- Environment for the `diff_fallback_chain` witness: `diff HEAD` succeeds
with non-empty output. -/
def envC2w : GitEnv := fun args =>
  if args = diffCmdHead (str "f") then ⟨true, str "D", []⟩ else ⟨true, [], []⟩

/-- Witness for `diff_fallback_chain`: a successful non-empty HEAD diff is
returned directly. -/
theorem diff_fallback_chain_witness :
    get_git_diff envC2w (fun _ => .error []) (str "r") (str "f") =
      (.ok (str "D"), [diffCmdHead (str "f")]) := by
  have h := diff_fallback_chain envC2w (fun _ => .error []) (str "r") (str "f")
  have h5 := h.2.2.2.2 (by decide) (by decide)
  simpa using h5

/-- C3: when `git push` fails with stderr mentioning a missing upstream and
the symbolic HEAD resolves, `git_push` lists the remotes and: with exactly
one remote it retries with `push --set-upstream <remote> <branch>` and
succeeds if that retry succeeds; with zero remotes it returns the error
"No remotes configured to push to."; with two or more remotes it returns an
error naming the branch and asking for manual resolution, with no retry
command in the trace. -/
theorem push_upstream_recovery (env : GitEnv) (repo : RepoModel) (full_name : Str)
    (hfail : (env [str "push"]).success = false)
    (hup : containsSub (str "no upstream branch") (env [str "push"]).stderr = true)
    (hopen : repo.openResult = .ok ())
    (hhead : repo.headReferent = some full_name) :
    (∀ r, repo.remotes = [r] →
      (git_push env repo).2 =
        [[str "push"], [str "push", str "--set-upstream", r.name, stripHeads full_name]]
      ∧ ((env [str "push", str "--set-upstream", r.name, stripHeads full_name]).success = true →
          (git_push env repo).1 = .ok ()))
    ∧ (repo.remotes = [] →
        git_push env repo = (.error (str "No remotes configured to push to."), [[str "push"]]))
    ∧ (2 ≤ repo.remotes.length →
        git_push env repo = (.error (str "Branch '" ++ stripHeads full_name
          ++ str "' has no upstream. Please set it manually or choose a remote."),
          [[str "push"]])) := by
  refine ⟨?_, ?_, ?_⟩
  · intro r hr
    constructor
    · cases hs : (env [str "push", str "--set-upstream", r.name, stripHeads full_name]).success <;>
        simp [git_push, get_git_remotes, hfail, hup, hopen, hhead, hr, hs]
    · intro hs
      simp [git_push, get_git_remotes, hfail, hup, hopen, hhead, hr, hs]
  · intro hr
    simp [git_push, get_git_remotes, hfail, hup, hopen, hhead, hr]
  · intro hlen
    rcases hr : repo.remotes with _ | ⟨a, _ | ⟨b, rest⟩⟩
    · rw [hr] at hlen
      simp at hlen
    · rw [hr] at hlen
      simp at hlen
    · simp [git_push, get_git_remotes, hfail, hup, hopen, hhead, hr]

/-- Environment for the `push_upstream_recovery` witness: the first push
fails for lack of an upstream, everything else succeeds. -/
def env3 : GitEnv := fun args =>
  if args = [str "push"] then
    ⟨false, [], str "fatal: The current branch main has no upstream branch."⟩
  else ⟨true, [], []⟩

/-- Repository for the `push_upstream_recovery` witness: HEAD on main,
exactly one remote. -/
def repo3 : RepoModel :=
  ⟨.ok (), some (str "refs/heads/main"), [⟨str "origin", str "url"⟩], []⟩

/-- Witness for `push_upstream_recovery`: with one remote the upstream-
setting retry runs and the push succeeds. -/
theorem push_upstream_recovery_witness :
    (git_push env3 repo3).1 = .ok ()
    ∧ (git_push env3 repo3).2 =
        [[str "push"],
          [str "push", str "--set-upstream", str "origin", stripHeads (str "refs/heads/main")]] := by
  have h := (push_upstream_recovery env3 repo3 (str "refs/heads/main")
      (by decide) (by decide) rfl rfl).1 ⟨str "origin", str "url"⟩ rfl
  exact ⟨h.2 (by decide), h.1⟩

/-- C5: when the requested branch name equals the branch name of the
symbolic HEAD referent, `git_delete_branch` returns the error
"Cannot delete the currently active branch." with an empty command trace,
i.e. before any local or remote deletion command is run (so the repository
state is untouched). -/
theorem delete_current_branch_guard (env : GitEnv) (repo : RepoModel) (full_name : Str)
    (branch_name : Str) (delete_remote : Bool)
    (hopen : repo.openResult = .ok ())
    (hhead : repo.headReferent = some full_name)
    (hmatch : stripHeads full_name = branch_name) :
    git_delete_branch env repo branch_name delete_remote =
      (.error (str "Cannot delete the currently active branch."), []) := by
  simp [git_delete_branch, hopen, hhead, hmatch]

/-- Repository for the `delete_current_branch_guard` witness. -/
def repo5 : RepoModel := ⟨.ok (), some (str "refs/heads/main"), [], []⟩

/-- Witness for `delete_current_branch_guard` at the branch "main". -/
theorem delete_current_branch_guard_witness :
    git_delete_branch (fun _ => ⟨true, [], []⟩) repo5 (str "main") true =
      (.error (str "Cannot delete the currently active branch."), []) :=
  delete_current_branch_guard (fun _ => ⟨true, [], []⟩) repo5 (str "refs/heads/main")
    (str "main") true rfl rfl (by decide)

/-- Environment for the C6 code-bug evaluation: checkout succeeds and the
re-queried status reports `foo` as untracked (`?? foo`). -/
def env6 : GitEnv := fun args =>
  if args = [str "status", str "--porcelain"] then ⟨true, str "?? foo\n", []⟩
  else ⟨true, [], []⟩

/-- Repository for the C6 code-bug evaluation. -/
def repo6 : RepoModel := ⟨.ok (), none, [], []⟩

/-- C6 (code bug): a requested file that the re-queried status reports as
untracked (porcelain line "?? foo", parsed as an unstaged entry with status
" ?") is NOT cleaned: the trace contains no `clean` command, because the
filter compares `s.status.trim()` — always a single character here — with
"??", which never matches.  The claim (and the spec's testable property 6)
say the clean must run with exactly this file. -/
theorem discard_clean_never_runs :
    parseStatus (str "?? foo\n") = [⟨str "foo", [' ', '?'], false⟩]
    ∧ git_discard_changes env6 repo6 [str "foo"] =
        (.ok (), [[str "checkout", str "--", str "foo"], [str "status", str "--porcelain"]]) := by
  decide

/-- When every requested add succeeds, the staging loop succeeds with a
trace of exactly one `add` per requested file, in order. -/
theorem stageFiles_ok (env : GitEnv) (files : List Str)
    (hadd : ∀ f ∈ files, (env [str "add", f]).success = true) :
    stageFiles env files = (.ok (), files.map (fun f => [str "add", f])) := by
  induction files with
  | nil => rfl
  | cons f rest ih =>
    have hf := hadd f (List.mem_cons_self f rest)
    have hrest := ih (fun g hg => hadd g (List.mem_cons_of_mem f hg))
    simp [stageFiles, git_stage_file, hf, hrest]

/-- C7: on a non-empty request whose stagings succeed, `git_stash_save`
runs exactly one `add` per requested path (no other file is touched) and
then a single `stash push --staged` — stashing only staged content — with
`-m <message>` attached exactly when a message with non-empty trim was
supplied. -/
theorem stash_save_stages_only_requested (env : GitEnv) (files : List Str)
    (message : Option Str) (hne : files ≠ [])
    (hadd : ∀ f ∈ files, (env [str "add", f]).success = true) :
    (git_stash_save env files message).2 =
      files.map (fun f => [str "add", f])
        ++ [[str "stash", str "push", str "--staged"] ++ stashMsgArgs message]
    ∧ (∀ m, message = some m → (rustTrim m).isEmpty = false →
        stashMsgArgs message = [str "-m", m]) := by
  constructor
  · have hrun := stageFiles_ok env files hadd
    have hfe : files.isEmpty = false := by
      cases files with
      | nil => exact absurd rfl hne
      | cons a l => rfl
    cases hs : (env (str "stash" :: str "push" :: str "--staged" :: stashMsgArgs message)).success <;>
      simp [git_stash_save, hfe, hrun, hs]
  · intro m hm hmt
    simp [stashMsgArgs, hm, hmt]

/-- All-success environment for the `stash_save_stages_only_requested`
witness. -/
def env7 : GitEnv := fun _ => ⟨true, [], []⟩

/-- Witness for `stash_save_stages_only_requested` on two files and a
message. -/
theorem stash_save_stages_only_requested_witness :
    (git_stash_save env7 [str "a", str "b"] (some (str "msg"))).2 =
      [[str "add", str "a"], [str "add", str "b"],
        [str "stash", str "push", str "--staged", str "-m", str "msg"]] := by
  have h := stash_save_stages_only_requested env7 [str "a", str "b"] (some (str "msg"))
    (by decide) (fun f _ => rfl)
  rw [h.1]
  decide

/-- C8: when the cache file keyed by the hash of the lowercased, trimmed
email exists, `get_avatar` returns the cached bytes base64-encoded as a
data URL and its network trace is empty: no network call is issued. -/
theorem avatar_cache_hit (w : AvatarWorld) (email name : Str) (repo_path : Option Str)
    (bytes : List Nat)
    (hcache : w.cacheFile (w.hashFn ((rustTrim email).map Char.toLower)) = some bytes) :
    get_avatar w email name repo_path =
      (.ok (str "data:image/png;base64," ++ base64Encode bytes), []) := by
  simp [get_avatar, hcache]

/-- World for the `avatar_cache_hit` witness: the digest of every email is
"h" and the corresponding cache file holds three bytes. -/
def w8 : AvatarWorld :=
  ⟨fun _ => str "h",
    fun k => if k = str "h" then some [1, 2, 3] else none,
    fun _ => .sendFailed [],
    none,
    fun _ => ⟨true, [], []⟩,
    .ok ()⟩

/-- Witness for `avatar_cache_hit` at a concrete email. -/
theorem avatar_cache_hit_witness :
    get_avatar w8 (str " A@B.c ") (str "N") (some (str "repo")) =
      (.ok (str "data:image/png;base64," ++ base64Encode [1, 2, 3]), []) :=
  avatar_cache_hit w8 (str " A@B.c ") (str "N") (some (str "repo")) [1, 2, 3] (by decide)

/-- C10: when every local branch reference carries the "refs/heads/" prefix
and the (bare) target local name does not, the existence check of
`git_checkout_remote_branch` — which compares full reference names against
the bare target name — computes false, so the operation always runs the
create-and-track checkout and the "Branch '<name>' exists." error is
unreachable. -/
theorem checkout_remote_always_creates (env : GitEnv) (repo : RepoModel)
    (remote_branch : Str) (new_branch_name : Option Str)
    (hopen : repo.openResult = .ok ())
    (hrefs : ∀ r ∈ repo.localRefs, (str "refs/heads/").isPrefixOf r = true)
    (htarget : (str "refs/heads/").isPrefixOf
        (new_branch_name.getD (afterFirstSlash remote_branch)) = false) :
    (git_checkout_remote_branch env repo remote_branch new_branch_name).2 =
      [[str "checkout", str "-b", new_branch_name.getD (afterFirstSlash remote_branch),
        str "--track", remote_branch]]
    ∧ ∀ e, (git_checkout_remote_branch env repo remote_branch new_branch_name).1 = .error e →
        e ≠ str "Branch '" ++ new_branch_name.getD (afterFirstSlash remote_branch)
          ++ str "' exists." := by
  have hex : repo.localRefs.any
      (fun full => full == new_branch_name.getD (afterFirstSlash remote_branch)) = false := by
    rw [List.any_eq_false]
    intro full hf
    simp only [beq_iff_eq]
    intro heq
    rw [heq] at hf
    have := hrefs _ hf
    rw [htarget] at this
    cases this
  constructor
  · cases hs : (env [str "checkout", str "-b",
        new_branch_name.getD (afterFirstSlash remote_branch),
        str "--track", remote_branch]).success <;>
      simp [git_checkout_remote_branch, hopen, hex, hs]
  · intro e he
    cases hs : (env [str "checkout", str "-b",
        new_branch_name.getD (afterFirstSlash remote_branch),
        str "--track", remote_branch]).success
    · simp [git_checkout_remote_branch, hopen, hex, hs] at he
      subst he
      intro hc
      rw [show str "Git checkout failed: " = 'G' :: str "it checkout failed: " from by decide,
        show str "Branch '" = 'B' :: str "ranch '" from by decide] at hc
      simp [List.cons_append] at hc
    · simp [git_checkout_remote_branch, hopen, hex, hs] at he

/-- Repository for the `checkout_remote_always_creates` witness. -/
def repo10 : RepoModel := ⟨.ok (), none, [], [str "refs/heads/feature"]⟩

/-- Witness for `checkout_remote_always_creates`: checking out
`origin/feature` while `refs/heads/feature` exists still takes the
create-and-track path. -/
theorem checkout_remote_always_creates_witness :
    (git_checkout_remote_branch (fun _ => ⟨true, [], []⟩) repo10 (str "origin/feature") none).2 =
      [[str "checkout", str "-b", (none : Option Str).getD (afterFirstSlash (str "origin/feature")),
        str "--track", str "origin/feature"]] :=
  (checkout_remote_always_creates (fun _ => ⟨true, [], []⟩) repo10 (str "origin/feature") none
    rfl (by decide) (by decide)).1
